import Mathlib

/-! Shallow embedding of the bilibili-comment-manage moderation pipeline
(`src/app.py`, the concurrent variant that the specification takes as
canonical).  Python `dict` records of the violation ledger become a Lean
structure, the in-place list mutations of `_update_violation_user` and
`blacklist_user` become pure functions on `List ViolationRecord`, the
platform calls that may raise become explicit result parameters, and the
`try/except` blocks become explicit catch wrappers.
-/

namespace BCM

/-- One entry of `violation_users` (a JSON object in `violation_users.json`):
fields `username`, `uid`, `violation_count`, `comment_rpids`,
`comment_contents`. -/
structure ViolationRecord where
  username : String
  uid : Int
  violation_count : Int
  comment_rpids : List Int
  comment_contents : List String
deriving DecidableEq

instance : Inhabited ViolationRecord :=
  ⟨⟨"", 0, 0, [], []⟩⟩

/-- Index of the first record with the given `uid`, mirroring the
`for i, user_info in enumerate(self.violation_users)` search loop of
`_update_violation_user` (and of `blacklist_user`), which breaks on the
first match. -/
def findUidIdx : List ViolationRecord → Int → Option Nat
  | [], _ => none
  | r :: rest, uid =>
      if r.uid = uid then some 0 else (findUidIdx rest uid).map (· + 1)

/-- First record with the given `uid`, if any. -/
def findRecord : List ViolationRecord → Int → Option ViolationRecord
  | [], _ => none
  | r :: rest, uid => if r.uid = uid then some r else findRecord rest uid

/-- Replace the element at index `i` by `f` of it (in-place mutation of a
Python list element). Out-of-range indices leave the list unchanged. -/
def modifyIdx : List ViolationRecord → Nat → (ViolationRecord → ViolationRecord) → List ViolationRecord
  | [], _, _ => []
  | r :: rest, 0, f => f r :: rest
  | r :: rest, n + 1, f => r :: modifyIdx rest n f

/-- The in-place mutation applied to an existing record in
`_update_violation_user`: `violation_count += 1`,
`comment_rpids.append(rpid)`, `comment_contents.append(content)`.
The `username` field is not touched. -/
def recordUpdate (r : ViolationRecord) (rpid : Int) (content : String) : ViolationRecord :=
  { r with
    violation_count := r.violation_count + 1
    comment_rpids := r.comment_rpids ++ [rpid]
    comment_contents := r.comment_contents ++ [content] }

/-- The fresh record appended for a user not yet in the ledger. -/
def newRecord (username : String) (uid rpid : Int) (content : String) : ViolationRecord :=
  { username := username
    uid := uid
    violation_count := 1
    comment_rpids := [rpid]
    comment_contents := [content] }

/-- Function `_update_violation_user` (src/app.py lines 137-178), the happy path of
its `try` block.  Returns the new ledger together with the uid appended to
`blacklist_queue` (if any): after the update, `check_index` points at the
updated (or freshly appended) record, and the uid is enqueued exactly when
that record's `violation_count` equals 3. -/
def updateViolationUser (ledger : List ViolationRecord) (username : String)
    (uid rpid : Int) (content : String) : List ViolationRecord × Option Int :=
  let found := findUidIdx ledger uid
  let ledger' :=
    match found with
    | some i => modifyIdx ledger i (fun r => recordUpdate r rpid content)
    | none => ledger ++ [newRecord username uid rpid content]
  let checkIndex :=
    match found with
    | some i => i
    | none => ledger'.length - 1
  let enq :=
    if (ledger'.getD checkIndex default).violation_count = 3 then some uid else none
  (ledger', enq)

/-- The marking loop inside `blacklist_user` (src/app.py lines 216-219):
set the first record with this uid to the sentinel `violation_count` 999;
a uid with no record leaves the ledger unchanged. -/
def markBlocked (ledger : List ViolationRecord) (uid : Int) : List ViolationRecord :=
  match findUidIdx ledger uid with
  | some i => modifyIdx ledger i (fun r => { r with violation_count := 999 })
  | none => ledger

/-- The allow-listed operator uid hardcoded in `blacklist_user`
(`if uid not in [621240130]`). -/
def ALLOWLIST_UID : Int := 621240130

/-- Result of the platform `modify_relation(RelationType.BLOCK)` call,
which either succeeds or raises. -/
inductive BlockCallResult where
  | ok : BlockCallResult
  | error : BlockCallResult
deriving DecidableEq

/-- Outcome of one `blacklist_user` call: the ledger afterwards, and
whether the platform block call was issued at all. -/
structure BlacklistOutcome where
  ledger : List ViolationRecord
  callIssued : Bool
deriving DecidableEq

/-- Function `blacklist_user` (src/app.py lines 201-222).  The allow-list guard
skips everything for uid 621240130.  Otherwise the platform block call is
issued; if it raises, the `except` catches it before the marking loop
runs, so the ledger is unchanged; if it succeeds, the first record for the
uid is marked with the sentinel 999. -/
def blacklistUser (res : BlockCallResult) (ledger : List ViolationRecord) (uid : Int) :
    BlacklistOutcome :=
  if uid ∈ [ALLOWLIST_UID] then ⟨ledger, false⟩
  else
    match res with
    | BlockCallResult.ok => ⟨markBlocked ledger uid, true⟩
    | BlockCallResult.error => ⟨ledger, true⟩

/-- The block-queue drain loop at the end of `process_all_comments`
(src/app.py lines 440-443): pop each uid in FIFO order and run
`blacklist_user` on it.  Returns the final ledger and the uids for which a
platform block call was issued. -/
def drainBlacklistQueue (res : Int → BlockCallResult) :
    List Int → List ViolationRecord → List ViolationRecord × List Int
  | [], ledger => (ledger, [])
  | uid :: rest, ledger =>
      let o := blacklistUser (res uid) ledger uid
      let r := drainBlacklistQueue res rest o.ledger
      (r.1, (if o.callIssued then [uid] else []) ++ r.2)

/-- A sequence of `RecordViolation` calls by one user (the ledger part;
the enqueue decisions of the individual calls are settled separately). -/
def recordViolations (ledger : List ViolationRecord) (u : String) (uid : Int) :
    List (Int × String) → List ViolationRecord
  | [] => ledger
  | item :: rest =>
      recordViolations ((updateViolationUser ledger u uid item.1 item.2).1) u uid rest

/-- Field `violation_count` of the first record for `uid`, 0 when no record
exists.  Spec-side observation used to phrase the escalation claims. -/
def countOf (ledger : List ViolationRecord) (uid : Int) : Int :=
  match findRecord ledger uid with
  | some r => r.violation_count
  | none => 0

/-! Basic lemmas about the list helpers. -/

theorem modifyIdx_length (l : List ViolationRecord) (i : Nat)
    (f : ViolationRecord → ViolationRecord) : (modifyIdx l i f).length = l.length := by
  induction l generalizing i with
  | nil => rfl
  | cons r rest ih =>
      cases i with
      | zero => rfl
      | succ n => simp [modifyIdx, ih]

theorem findUidIdx_none_iff (l : List ViolationRecord) (uid : Int) :
    findUidIdx l uid = none ↔ ∀ r ∈ l, r.uid ≠ uid := by
  induction l with
  | nil => simp [findUidIdx]
  | cons r rest ih =>
      by_cases h : r.uid = uid
      · simp [findUidIdx, h]
      · simp [findUidIdx, h, ih]

theorem findUidIdx_lt (l : List ViolationRecord) (uid : Int) (i : Nat)
    (h : findUidIdx l uid = some i) : i < l.length := by
  induction l generalizing i with
  | nil => simp [findUidIdx] at h
  | cons r rest ih =>
      by_cases hr : r.uid = uid
      · simp [findUidIdx, hr] at h
        simp [List.length_cons]
        omega
      · simp [findUidIdx, hr] at h
        obtain ⟨j, hj, rfl⟩ := h
        have := ih j hj
        simp [List.length_cons]
        omega

theorem findRecord_of_findUidIdx (l : List ViolationRecord) (uid : Int) (i : Nat)
    (h : findUidIdx l uid = some i) :
    findRecord l uid = some (l.getD i default) := by
  induction l generalizing i with
  | nil => simp [findUidIdx] at h
  | cons r rest ih =>
      by_cases hr : r.uid = uid
      · simp [findUidIdx, hr] at h
        subst h
        simp [findRecord, hr]
      · simp [findUidIdx, hr] at h
        obtain ⟨j, hj, rfl⟩ := h
        simp [findRecord, hr, ih j hj]

theorem getD_modifyIdx_self (l : List ViolationRecord) (i : Nat)
    (f : ViolationRecord → ViolationRecord) (h : i < l.length) :
    (modifyIdx l i f).getD i default = f (l.getD i default) := by
  induction l generalizing i with
  | nil => simp at h
  | cons r rest ih =>
      cases i with
      | zero => simp [modifyIdx, List.getD_cons_zero]
      | succ n =>
          simp only [modifyIdx, List.getD_cons_succ]
          exact ih n (by simpa using h)

theorem findRecord_modifyIdx (l : List ViolationRecord) (uid : Int) (i : Nat)
    (f : ViolationRecord → ViolationRecord) (hf : ∀ r, (f r).uid = r.uid)
    (h : findUidIdx l uid = some i) :
    findRecord (modifyIdx l i f) uid = some (f (l.getD i default)) := by
  induction l generalizing i with
  | nil => simp [findUidIdx] at h
  | cons r rest ih =>
      by_cases hr : r.uid = uid
      · simp [findUidIdx, hr] at h
        subst h
        simp [modifyIdx, findRecord, hf, hr]
      · simp [findUidIdx, hr] at h
        obtain ⟨j, hj, rfl⟩ := h
        simp [modifyIdx, findRecord, hr, ih j hj]

theorem findRecord_none_iff (l : List ViolationRecord) (uid : Int) :
    findRecord l uid = none ↔ findUidIdx l uid = none := by
  induction l with
  | nil => simp [findRecord, findUidIdx]
  | cons r rest ih =>
      by_cases hr : r.uid = uid
      · simp [findRecord, findUidIdx, hr]
      · simp [findRecord, findUidIdx, hr, ih]

theorem getD_append_last (l : List ViolationRecord) (r : ViolationRecord) :
    (l ++ [r]).getD l.length default = r := by
  induction l with
  | nil => rfl
  | cons a rest ih => simp [List.getD_cons_succ, ih]

theorem findRecord_append_new (l : List ViolationRecord) (uid : Int)
    (hnone : findUidIdx l uid = none) (r : ViolationRecord) (hr : r.uid = uid) :
    findRecord (l ++ [r]) uid = some r := by
  induction l with
  | nil => simp [findRecord, hr]
  | cons a rest ih =>
      rw [findUidIdx_none_iff] at hnone
      have ha : a.uid ≠ uid := hnone a (by simp)
      have hrest : findUidIdx rest uid = none := by
        rw [findUidIdx_none_iff]
        intro x hx
        exact hnone x (by simp [hx])
      simp [findRecord, ha, ih hrest]

theorem countOf_eq_of_findUidIdx_some (l : List ViolationRecord) (uid : Int) (i : Nat)
    (h : findUidIdx l uid = some i) :
    countOf l uid = (l.getD i default).violation_count := by
  simp [countOf, findRecord_of_findUidIdx l uid i h]

theorem countOf_eq_zero_of_none (l : List ViolationRecord) (uid : Int)
    (h : findUidIdx l uid = none) : countOf l uid = 0 := by
  simp [countOf, (findRecord_none_iff l uid).2 h]

/-- Claim C1. Within one `_update_violation_user` call: only the call's own
uid can be enqueued on `blacklist_queue`; it is enqueued exactly when the
call makes the user's `violation_count` equal 3 (previous count + 1 = 3,
counting a missing record as 0); in particular, a user whose count is
already 3 or higher beforehand never has a new block action enqueued. -/
theorem claim_C1_block_enqueue_iff_count_three (ledger : List ViolationRecord)
    (u : String) (uid rpid : Int) (content : String) :
    (∀ v, (updateViolationUser ledger u uid rpid content).2 = some v → v = uid)
    ∧ ((updateViolationUser ledger u uid rpid content).2 = some uid ↔
        countOf ledger uid + 1 = 3)
    ∧ (3 ≤ countOf ledger uid →
        (updateViolationUser ledger u uid rpid content).2 = none) := by
  cases h : findUidIdx ledger uid with
  | none =>
      have hc : countOf ledger uid = 0 := countOf_eq_zero_of_none _ _ h
      have hlast :
          (ledger ++ [newRecord u uid rpid content]).getD
            ((ledger ++ [newRecord u uid rpid content]).length - 1) default
            = newRecord u uid rpid content := by
        have hlen : (ledger ++ [newRecord u uid rpid content]).length - 1 = ledger.length := by
          simp
        rw [hlen]
        exact getD_append_last ledger _
      refine ⟨?_, ?_, ?_⟩ <;>
        simp [updateViolationUser, h, hlast, newRecord, hc]
  | some i =>
      have hi : i < ledger.length := findUidIdx_lt ledger uid i h
      have hc := countOf_eq_of_findUidIdx_some ledger uid i h
      have hmod :
          (modifyIdx ledger i (fun r => recordUpdate r rpid content)).getD i default
            = recordUpdate (ledger.getD i default) rpid content :=
        getD_modifyIdx_self ledger i _ hi
      have henq :
          (updateViolationUser ledger u uid rpid content).2 =
            if (ledger.getD i default).violation_count + 1 = 3 then some uid else none := by
        simp only [updateViolationUser, h]
        rw [hmod]
        rfl
      refine ⟨?_, ?_, ?_⟩
      · intro v hv
        rw [henq] at hv
        split at hv
        · exact (Option.some.inj hv).symm
        · exact absurd hv (by simp)
      · rw [henq, hc]
        by_cases h3 : (ledger.getD i default).violation_count + 1 = 3 <;> simp [h3]
      · intro h3
        rw [henq]
        rw [hc] at h3
        have hne : ¬((ledger.getD i default).violation_count + 1 = 3) := by omega
        rw [if_neg hne]

/-- Witness for C1 at a concrete input: a user with 2 prior violations gets
a block action on the third, and the enqueued value is that uid. -/
theorem claim_C1_witness :
    ((updateViolationUser [⟨"eve", 5, 2, [1, 2], ["a", "b"]⟩] "eve" 5 3 "c").2 = some 5 ↔
      countOf [⟨"eve", 5, 2, [1, 2], ["a", "b"]⟩] 5 + 1 = 3) ∧
    (updateViolationUser [⟨"eve", 5, 2, [1, 2], ["a", "b"]⟩] "eve" 5 3 "c").2 = some 5 := by
  refine ⟨(claim_C1_block_enqueue_iff_count_three _ "eve" 5 3 "c").2.1, ?_⟩
  rfl

/-- Claim C2 counterexample. An existing record keeps its original
`username`: `_update_violation_user` only sets `username` when creating a
fresh record, so a later call with a different username does not update it. -/
theorem claim_C2_counterexample :
    (findRecord ((updateViolationUser [⟨"alice", 1, 1, [10], ["x"]⟩] "bob" 1 11 "y").1) 1).map
        ViolationRecord.username = some "alice"
    ∧ "alice" ≠ "bob" := by
  exact ⟨rfl, by decide⟩

/-- Claim C2 amended. `RecordViolation(userId, username, replyId, body)`: if
no record exists for `userId` a new one is appended with count 1, the
single id/body pair and the call's username; otherwise the first matching
record gets count + 1 and the id/body appended, while its `username` field
is left unchanged (it keeps the value from the record's creation, not the
latest call's). -/
theorem claim_C2_record_violation_update (ledger : List ViolationRecord)
    (u : String) (uid rpid : Int) (content : String) :
    (findRecord ledger uid = none →
      (updateViolationUser ledger u uid rpid content).1 =
        ledger ++ [newRecord u uid rpid content])
    ∧ (∀ r, findRecord ledger uid = some r →
      findRecord ((updateViolationUser ledger u uid rpid content).1) uid =
        some ⟨r.username, r.uid, r.violation_count + 1,
              r.comment_rpids ++ [rpid], r.comment_contents ++ [content]⟩) := by
  constructor
  · intro hnone
    have h := (findRecord_none_iff ledger uid).1 hnone
    simp [updateViolationUser, h]
  · intro r hr
    cases h : findUidIdx ledger uid with
    | none =>
        rw [(findRecord_none_iff ledger uid).2 h] at hr
        exact absurd hr (by simp)
    | some i =>
        have hrec := findRecord_of_findUidIdx ledger uid i h
        rw [hr] at hrec
        have hget : ledger.getD i default = r := (Option.some.inj hrec).symm
        have hmod := findRecord_modifyIdx ledger uid i
          (fun r => recordUpdate r rpid content) (fun r => rfl) h
        simp only [updateViolationUser, h]
        rw [hmod, hget]
        rfl

/-- Witness for C2 amended at concrete inputs: fresh user creation, and an
update of an existing record. -/
theorem claim_C2_witness :
    (updateViolationUser [] "carol" 9 7 "w").1 = [⟨"carol", 9, 1, [7], ["w"]⟩]
    ∧ findRecord ((updateViolationUser [⟨"alice", 1, 1, [10], ["x"]⟩] "bob" 1 11 "y").1) 1 =
        some ⟨"alice", 1, 2, [10, 11], ["x", "y"]⟩ := by
  constructor
  · exact (claim_C2_record_violation_update [] "carol" 9 7 "w").1 rfl
  · exact (claim_C2_record_violation_update [⟨"alice", 1, 1, [10], ["x"]⟩] "bob" 1 11 "y").2
      ⟨"alice", 1, 1, [10], ["x"]⟩ rfl

theorem findRecord_update_some (l : List ViolationRecord) (u : String)
    (uid rpid : Int) (c : String) (i : Nat) (h : findUidIdx l uid = some i) :
    findRecord ((updateViolationUser l u uid rpid c).1) uid =
      some (recordUpdate (l.getD i default) rpid c) := by
  have hmod := findRecord_modifyIdx l uid i (fun r => recordUpdate r rpid c) (fun r => rfl) h
  simp only [updateViolationUser, h]
  exact hmod

theorem findRecord_update_none (l : List ViolationRecord) (u : String)
    (uid rpid : Int) (c : String) (h : findUidIdx l uid = none) :
    findRecord ((updateViolationUser l u uid rpid c).1) uid =
      some (newRecord u uid rpid c) := by
  simp only [updateViolationUser, h]
  exact findRecord_append_new l uid h _ rfl

theorem countOf_update_of_some (l : List ViolationRecord) (u : String)
    (uid rpid : Int) (c : String) (i : Nat) (h : findUidIdx l uid = some i) :
    countOf ((updateViolationUser l u uid rpid c).1) uid = countOf l uid + 1 := by
  rw [countOf, findRecord_update_some l u uid rpid c i h,
    countOf_eq_of_findUidIdx_some l uid i h]
  rfl

theorem countOf_update_of_none (l : List ViolationRecord) (u : String)
    (uid rpid : Int) (c : String) (h : findUidIdx l uid = none) :
    countOf ((updateViolationUser l u uid rpid c).1) uid = 1 := by
  rw [countOf, findRecord_update_none l u uid rpid c h]
  rfl

theorem findUidIdx_update_ne_none (l : List ViolationRecord) (u : String)
    (uid rpid : Int) (c : String) :
    findUidIdx ((updateViolationUser l u uid rpid c).1) uid ≠ none := by
  intro hnone
  have hrec := (findRecord_none_iff _ uid).2 hnone
  cases h : findUidIdx l uid with
  | none => rw [findRecord_update_none l u uid rpid c h] at hrec; exact absurd hrec (by simp)
  | some i => rw [findRecord_update_some l u uid rpid c i h] at hrec; exact absurd hrec (by simp)

theorem countOf_recordViolations (u : String) (uid : Int) (items : List (Int × String)) :
    ∀ l : List ViolationRecord, findUidIdx l uid ≠ none →
      countOf (recordViolations l u uid items) uid = countOf l uid + items.length := by
  induction items with
  | nil => intro l _; simp [recordViolations]
  | cons item rest ih =>
      intro l hl
      obtain ⟨i, hi⟩ : ∃ i, findUidIdx l uid = some i := by
        cases h : findUidIdx l uid with
        | none => exact absurd h hl
        | some i => exact ⟨i, rfl⟩
      rw [recordViolations,
        ih _ (findUidIdx_update_ne_none l u uid item.1 item.2),
        countOf_update_of_some l u uid item.1 item.2 i hi]
      simp [List.length_cons]
      ring

theorem countOf_markBlocked (l : List ViolationRecord) (uid : Int) (r : ViolationRecord)
    (h : findRecord l uid = some r) : countOf (markBlocked l uid) uid = 999 := by
  cases hidx : findUidIdx l uid with
  | none =>
      rw [(findRecord_none_iff l uid).2 hidx] at h
      exact absurd h (by simp)
  | some i =>
      have hmod := findRecord_modifyIdx l uid i
        (fun r => { r with violation_count := 999 }) (fun r => rfl) hidx
      rw [countOf, markBlocked, hidx, hmod]

theorem findUidIdx_markBlocked_ne_none (l : List ViolationRecord) (uid : Int)
    (r : ViolationRecord) (h : findRecord l uid = some r) :
    findUidIdx (markBlocked l uid) uid ≠ none := by
  intro hnone
  cases hidx : findUidIdx l uid with
  | none =>
      rw [(findRecord_none_iff l uid).2 hidx] at h
      exact absurd h (by simp)
  | some i =>
      have hmod := findRecord_modifyIdx l uid i
        (fun r => { r with violation_count := 999 }) (fun r => rfl) hidx
      have := (findRecord_none_iff _ uid).2 hnone
      rw [markBlocked, hidx] at this
      rw [this] at hmod
      exact absurd hmod (by simp)

/-- Claim C3 counterexample. The sentinel is not terminal: a user whose
record was marked 999 by `MarkBlocked` and who violates once more has
`violation_count` 1000, because `_update_violation_user` increments
unconditionally. -/
theorem claim_C3_counterexample :
    countOf ((updateViolationUser (markBlocked [⟨"u", 7, 3, [], []⟩] 7) "u" 7 1 "x").1) 7 = 1000
    ∧ (1000 : Int) ≠ 999 := by
  exact ⟨rfl, by decide⟩

/-- Claim C3 amended. For a single user: starting with no record, the
record's `violationCount` after N recorded violations equals N (so in
particular it equals N up to the block trigger at N = 3); once
`MarkBlocked` has written the sentinel 999, k further recorded violations
leave the count at 999 + k — the count is not fixed at 999, it keeps
incrementing from the sentinel (and hence never re-triggers the
count-equals-3 block rule). -/
theorem claim_C3_count_progression (ledger : List ViolationRecord) (u : String)
    (uid : Int) (items : List (Int × String)) :
    (findUidIdx ledger uid = none →
      countOf (recordViolations ledger u uid items) uid = items.length)
    ∧ (∀ r, findRecord ledger uid = some r →
      countOf (recordViolations (markBlocked ledger uid) u uid items) uid =
        999 + items.length) := by
  constructor
  · intro hnone
    cases items with
    | nil => simp [recordViolations, countOf_eq_zero_of_none ledger uid hnone]
    | cons item rest =>
        rw [recordViolations,
          countOf_recordViolations u uid rest _
            (findUidIdx_update_ne_none ledger u uid item.1 item.2),
          countOf_update_of_none ledger u uid item.1 item.2 hnone]
        simp [List.length_cons]
        ring
  · intro r hr
    rw [countOf_recordViolations u uid items _
        (findUidIdx_markBlocked_ne_none ledger uid r hr),
      countOf_markBlocked ledger uid r hr]

/-- Witness for C3 amended: a fresh user reaches count 2 after two
violations, and a marked user sits at 999 + 2 = 1001 after two more. -/
theorem claim_C3_witness :
    countOf (recordViolations [] "u" 7 [(1, "a"), (2, "b")]) 7 = 2
    ∧ countOf (recordViolations (markBlocked [⟨"u", 7, 3, [], []⟩] 7) "u" 7
        [(1, "a"), (2, "b")]) 7 = 999 + 2 := by
  constructor
  · exact (claim_C3_count_progression [] "u" 7 [(1, "a"), (2, "b")]).1 rfl
  · exact (claim_C3_count_progression [⟨"u", 7, 3, [], []⟩] "u" 7 [(1, "a"), (2, "b")]).2
      ⟨"u", 7, 3, [], []⟩ rfl

theorem blacklistUser_allowlist (r : BlockCallResult) (l : List ViolationRecord) :
    blacklistUser r l ALLOWLIST_UID = ⟨l, false⟩ := by
  simp [blacklistUser]

theorem blacklistUser_error_ledger (l : List ViolationRecord) (uid : Int) :
    (blacklistUser BlockCallResult.error l uid).ledger = l := by
  by_cases h : uid = ALLOWLIST_UID <;> simp [blacklistUser, h]

/-- Claim C4 counterexample. The allow-listed uid is not filtered at enqueue
time: when 621240130's violation count reaches 3, `_update_violation_user`
appends it to `blacklist_queue` like any other uid, so a `BlockUser` action
carrying the allow-listed uid is emitted onto the block queue. -/
theorem claim_C4_counterexample :
    (updateViolationUser [⟨"op", ALLOWLIST_UID, 2, [1, 2], ["a", "b"]⟩] "op"
        ALLOWLIST_UID 3 "c").2 = some ALLOWLIST_UID := by
  rfl

/-- Claim C4 amended. The allow-listed uid 621240130 can appear on the block
queue (enqueueing does not filter it), but the executor's guard makes it
harmless: draining any block queue never issues a platform block call for
the allow-listed uid, and `blacklist_user` on the allow-listed uid leaves
the ledger untouched (no sentinel is written). -/
theorem claim_C4_allowlist_never_blocked (res : Int → BlockCallResult)
    (queue : List Int) (ledger : List ViolationRecord) :
    ALLOWLIST_UID ∉ (drainBlacklistQueue res queue ledger).2
    ∧ (∀ r l, blacklistUser r l ALLOWLIST_UID = ⟨l, false⟩) := by
  refine ⟨?_, fun r l => blacklistUser_allowlist r l⟩
  induction queue generalizing ledger with
  | nil => simp [drainBlacklistQueue]
  | cons uid rest ih =>
      by_cases huid : uid = ALLOWLIST_UID
      · subst huid
        simp only [drainBlacklistQueue, blacklistUser_allowlist]
        simpa using ih ledger
      · simp only [drainBlacklistQueue, List.mem_append]
        intro hmem
        rcases hmem with hmem | hmem
        · split at hmem
          · simp at hmem
            exact huid hmem.symm
          · simp at hmem
        · exact ih _ hmem

/-- Witness for C4 amended: a queue that does contain the allow-listed uid
still issues no platform call for it, and its record is untouched. -/
theorem claim_C4_witness :
    ALLOWLIST_UID ∉ (drainBlacklistQueue (fun _ => BlockCallResult.ok)
        [ALLOWLIST_UID, 5] [⟨"op", ALLOWLIST_UID, 3, [], []⟩]).2
    ∧ blacklistUser BlockCallResult.ok [⟨"op", ALLOWLIST_UID, 3, [], []⟩] ALLOWLIST_UID =
        ⟨[⟨"op", ALLOWLIST_UID, 3, [], []⟩], false⟩ := by
  exact ⟨(claim_C4_allowlist_never_blocked (fun _ => BlockCallResult.ok)
      [ALLOWLIST_UID, 5] [⟨"op", ALLOWLIST_UID, 3, [], []⟩]).1,
    (claim_C4_allowlist_never_blocked (fun _ => BlockCallResult.ok) [] []).2
      BlockCallResult.ok [⟨"op", ALLOWLIST_UID, 3, [], []⟩]⟩

/-- Claim C10. Block-then-mark atomicity in `blacklist_user`: when the
platform block call raises, the `except` handler fires before the marking
loop, so the ledger is entirely unchanged; conversely any call that does
change the ledger had a successful block call. -/
theorem claim_C10_mark_only_after_success (ledger : List ViolationRecord) (uid : Int) :
    (blacklistUser BlockCallResult.error ledger uid).ledger = ledger
    ∧ (∀ res, (blacklistUser res ledger uid).ledger ≠ ledger → res = BlockCallResult.ok) := by
  refine ⟨blacklistUser_error_ledger ledger uid, ?_⟩
  intro res hres
  cases res with
  | ok => rfl
  | error => exact absurd (blacklistUser_error_ledger ledger uid) hres

/-- Witness for C10: on a concrete ledger the failed block call leaves the
record at count 3, and a call that did mark the record was a success. -/
theorem claim_C10_witness :
    (blacklistUser BlockCallResult.error [⟨"u", 4, 3, [], []⟩] 4).ledger = [⟨"u", 4, 3, [], []⟩]
    ∧ BlockCallResult.ok = BlockCallResult.ok := by
  refine ⟨(claim_C10_mark_only_after_success [⟨"u", 4, 3, [], []⟩] 4).1, ?_⟩
  exact (claim_C10_mark_only_after_success [⟨"u", 4, 3, [], []⟩] 4).2
    BlockCallResult.ok (by decide)

/-- The ledger's per-uid uniqueness invariant: at most one record per
userId. -/
def uidsNodup (l : List ViolationRecord) : Prop :=
  (l.map (fun r => r.uid)).Nodup

theorem map_uid_modifyIdx (l : List ViolationRecord) (i : Nat)
    (f : ViolationRecord → ViolationRecord) (hf : ∀ r, (f r).uid = r.uid) :
    (modifyIdx l i f).map (fun r => r.uid) = l.map (fun r => r.uid) := by
  induction l generalizing i with
  | nil => rfl
  | cons r rest ih =>
      cases i with
      | zero => simp [modifyIdx, hf]
      | succ n => simp [modifyIdx, ih]

/-- Claim C5. Both ledger operations preserve the at-most-one-record-per-uid
invariant: `RecordViolation` either edits the found record in place
(leaving the uid column unchanged) or appends a record for a uid that was
absent, and `MarkBlocked` only edits a record in place. -/
theorem claim_C5_uniqueness_preserved (ledger : List ViolationRecord) (u : String)
    (uid rpid : Int) (content : String) (h : uidsNodup ledger) :
    uidsNodup ((updateViolationUser ledger u uid rpid content).1)
    ∧ uidsNodup (markBlocked ledger uid) := by
  constructor
  · cases hidx : findUidIdx ledger uid with
    | some i =>
        simp only [updateViolationUser, hidx]
        unfold uidsNodup
        rw [map_uid_modifyIdx ledger i (fun r => recordUpdate r rpid content) (fun r => rfl)]
        exact h
    | none =>
        simp only [updateViolationUser, hidx]
        unfold uidsNodup
        rw [List.map_append]
        rw [List.nodup_append]
        refine ⟨h, by simp, ?_⟩
        intro a ha hb
        simp [newRecord] at hb
        rw [findUidIdx_none_iff] at hidx
        obtain ⟨r, hr, rfl⟩ := List.mem_map.1 ha
        exact hidx r hr hb
  · cases hidx : findUidIdx ledger uid with
    | some i =>
        simp only [markBlocked, hidx]
        unfold uidsNodup
        rw [map_uid_modifyIdx ledger i
          (fun r => { r with violation_count := 999 }) (fun r => rfl)]
        exact h
    | none =>
        simp only [markBlocked, hidx]
        exact h

/-- Witness for C5: a concrete two-record ledger stays duplicate-free
after a fresh-user violation and after a marking. -/
theorem claim_C5_witness :
    uidsNodup [⟨"a", 1, 1, [], []⟩, ⟨"b", 2, 2, [], []⟩]
    ∧ uidsNodup ((updateViolationUser [⟨"a", 1, 1, [], []⟩, ⟨"b", 2, 2, [], []⟩] "c" 3 9 "x").1)
    ∧ uidsNodup (markBlocked [⟨"a", 1, 1, [], []⟩, ⟨"b", 2, 2, [], []⟩] 2) := by
  have h : uidsNodup [⟨"a", 1, 1, [], []⟩, ⟨"b", 2, 2, [], []⟩] := by
    unfold uidsNodup
    decide
  exact ⟨h, (claim_C5_uniqueness_preserved _ "c" 3 9 "x" h).1,
    (claim_C5_uniqueness_preserved _ "c" 2 9 "x" h).2⟩

/-- Outcome of one `re.search(word, content)` evaluation: a match object
(truthy), no match (`None`), or a raised exception (e.g. an invalid
pattern). -/
inductive SearchOutcome where
  | found : SearchOutcome
  | notFound : SearchOutcome
  | error : SearchOutcome
deriving DecidableEq

/-- Function `_check_violation` (src/app.py lines 117-135), parameterized by the
regex search primitive.  The `try` wraps the whole loop: the first word
whose search matches gives `true`; a raised search aborts the loop and the
handler returns `false`; an exhausted list gives `false`. -/
def checkViolation (search : String → String → SearchOutcome) :
    List String → String → Bool
  | [], _ => false
  | w :: ws, content =>
      match search w content with
      | SearchOutcome.found => true
      | SearchOutcome.notFound => checkViolation search ws content
      | SearchOutcome.error => false

/-- A concrete search primitive used by witnesses: the pattern matches
exactly when it equals the whole body. -/
def eqSearch (w c : String) : SearchOutcome :=
  if w = c then SearchOutcome.found else SearchOutcome.notFound

/-- A concrete search primitive for the C6 counterexample, modelling
`re.search` on the specific patterns it uses: the pattern `"["` is an
invalid regular expression, so its evaluation raises `re.error`; any other
pattern here matches exactly when it equals the whole body. -/
def bracketSearch (w c : String) : SearchOutcome :=
  if w = "[" then SearchOutcome.error
  else if w = c then SearchOutcome.found
  else SearchOutcome.notFound

/-- Claim C6 counterexample. With configured patterns `["[", "spam"]` and
body `"spam"`, evaluating the first pattern raises (invalid regex), the
`try` around the whole loop catches it, and `_check_violation` returns
`False` — even though a configured pattern (`"spam"`) does succeed against
the body.  So "returns true exactly when some configured pattern's search
succeeds" is false at this input. -/
theorem claim_C6_counterexample :
    checkViolation bracketSearch ["[", "spam"] "spam" = false
    ∧ ∃ w ∈ ["[", "spam"], bracketSearch w "spam" = SearchOutcome.found := by
  exact ⟨rfl, by decide⟩

/-- Claim C6 amended. `Matches(body)` returns true exactly when some
configured pattern's search succeeds against `body` with every earlier
pattern's search completing without a match and without an error (the loop
returns true on the first such pattern); in every other case — the list
exhausted without a match, or a pattern evaluation erroring before any
match, even when a later pattern would have matched — it returns false
rather than raising (the result is a total Boolean).  Stated as a
hypothesis-free characterization covering all inputs. -/
theorem claim_C6_first_success_semantics (search : String → String → SearchOutcome)
    (words : List String) (content : String) :
    checkViolation search words content = true ↔
      ∃ pre w post, words = pre ++ w :: post
        ∧ search w content = SearchOutcome.found
        ∧ ∀ x ∈ pre, search x content = SearchOutcome.notFound := by
  induction words with
  | nil =>
      simp only [checkViolation]
      constructor
      · intro h
        exact absurd h (by simp)
      · rintro ⟨pre, w, post, heq, -, -⟩
        exact absurd heq.symm (List.append_ne_nil_of_right_ne_nil pre (by simp))
  | cons a ws ih =>
      cases ha : search a content with
      | found =>
          simp only [checkViolation, ha]
          constructor
          · intro _
            exact ⟨[], a, ws, rfl, ha, by simp⟩
          · intro _
            trivial
      | notFound =>
          simp only [checkViolation, ha]
          rw [ih]
          constructor
          · rintro ⟨pre, w, post, heq, hw, hpre⟩
            refine ⟨a :: pre, w, post, by simp [heq], hw, ?_⟩
            intro x hx
            rcases List.mem_cons.1 hx with rfl | hx'
            · exact ha
            · exact hpre x hx'
          · rintro ⟨pre, w, post, heq, hw, hpre⟩
            cases pre with
            | nil =>
                obtain ⟨rfl, rfl⟩ : a = w ∧ ws = post := by
                  simpa using heq
                exact absurd hw (by simp [ha])
            | cons p pre' =>
                obtain ⟨rfl, hws⟩ : a = p ∧ ws = pre' ++ w :: post := by
                  simpa using heq
                exact ⟨pre', w, post, hws, hw,
                  fun x hx => hpre x (List.mem_cons_of_mem a hx)⟩
      | error =>
          simp only [checkViolation, ha]
          constructor
          · intro h
            exact absurd h (by simp)
          · rintro ⟨pre, w, post, heq, hw, hpre⟩
            cases pre with
            | nil =>
                obtain ⟨rfl, rfl⟩ : a = w ∧ ws = post := by
                  simpa using heq
                exact absurd hw (by simp [ha])
            | cons p pre' =>
                obtain ⟨rfl, hws⟩ : a = p ∧ ws = pre' ++ w :: post := by
                  simpa using heq
                have := hpre a (List.mem_cons_self a pre')
                exact absurd this (by simp [ha])

/-- Witness for C6 amended at a concrete input: the search of the second
pattern succeeds, the first completes without match or error, and the
matcher returns true. -/
theorem claim_C6_witness :
    checkViolation bracketSearch ["x", "spam"] "spam" = true := by
  exact (claim_C6_first_success_semantics bracketSearch ["x", "spam"] "spam").2
    ⟨["x"], "spam", [], rfl, by decide, by decide⟩

/-- A JSON value, as far as `violation_users.json` needs: the shapes
produced by `json.dump` of the ledger and consumed by `json.load`. -/
inductive JVal where
  | str : String → JVal
  | int : Int → JVal
  | arr : List JVal → JVal
  | obj : List (String × JVal) → JVal

/-- The JSON object written for one ledger record by `json.dump`
(`ensure_ascii=False, indent=4` only affect the text, not the value). -/
def encodeRecord (r : ViolationRecord) : JVal :=
  JVal.obj [("username", JVal.str r.username), ("uid", JVal.int r.uid),
    ("violation_count", JVal.int r.violation_count),
    ("comment_rpids", JVal.arr (r.comment_rpids.map JVal.int)),
    ("comment_contents", JVal.arr (r.comment_contents.map JVal.str))]

/-- Function `_save_violation_users` (src/app.py lines 105-115), the value written
to the store on the happy path: the whole ledger as a JSON array. -/
def saveViolationUsers (ledger : List ViolationRecord) : JVal :=
  JVal.arr (ledger.map encodeRecord)

def lookupKey : List (String × JVal) → String → Option JVal
  | [], _ => none
  | kv :: rest, key => if kv.1 = key then some kv.2 else lookupKey rest key

def decodeInts : List JVal → Option (List Int)
  | [] => some []
  | JVal.int n :: rest =>
      match decodeInts rest with
      | some ns => some (n :: ns)
      | none => none
  | _ :: _ => none

def decodeStrs : List JVal → Option (List String)
  | [] => some []
  | JVal.str s :: rest =>
      match decodeStrs rest with
      | some ss => some (s :: ss)
      | none => none
  | _ :: _ => none

/-- Read one ledger record back from its JSON object. -/
def decodeRecord : JVal → Option ViolationRecord
  | JVal.obj fields =>
      match lookupKey fields "username", lookupKey fields "uid",
        lookupKey fields "violation_count", lookupKey fields "comment_rpids",
        lookupKey fields "comment_contents" with
      | some (JVal.str u), some (JVal.int uid), some (JVal.int vc),
          some (JVal.arr rps), some (JVal.arr ccs) =>
          match decodeInts rps, decodeStrs ccs with
          | some rpids, some contents => some ⟨u, uid, vc, rpids, contents⟩
          | _, _ => none
      | _, _, _, _, _ => none
  | _ => none

def decodeRecords : List JVal → Option (List ViolationRecord)
  | [] => some []
  | v :: rest =>
      match decodeRecord v, decodeRecords rest with
      | some r, some rs => some (r :: rs)
      | _, _ => none

/-- Function `_load_violation_users` (src/app.py lines 77-103), the happy path on
an existing readable store: `json.load` of the array written by save,
read back as typed ledger records. -/
def loadViolationUsers : JVal → Option (List ViolationRecord)
  | JVal.arr items => decodeRecords items
  | _ => none

theorem decodeInts_map (ns : List Int) : decodeInts (ns.map JVal.int) = some ns := by
  induction ns with
  | nil => rfl
  | cons n rest ih => simp [decodeInts, ih]

theorem decodeStrs_map (ss : List String) : decodeStrs (ss.map JVal.str) = some ss := by
  induction ss with
  | nil => rfl
  | cons s rest ih => simp [decodeStrs, ih]

theorem decodeRecord_encodeRecord (r : ViolationRecord) :
    decodeRecord (encodeRecord r) = some r := by
  simp [encodeRecord, decodeRecord, lookupKey, decodeInts_map, decodeStrs_map]

/-- Claim C7. Ledger persistence round-trip: saving the in-memory ledger and
loading it back reproduces the identical sequence of records. -/
theorem claim_C7_save_load_roundtrip (ledger : List ViolationRecord) :
    loadViolationUsers (saveViolationUsers ledger) = some ledger := by
  simp only [saveViolationUsers, loadViolationUsers]
  induction ledger with
  | nil => rfl
  | cons r rest ih => simp [decodeRecords, decodeRecord_encodeRecord r, ih]

/-- A nested reply as flattened by `_get_single_sub_comment`: the fields
read out of the API reply dict. -/
structure SubReply where
  rpid : Int
  mid : Int
  user : String
  content : String
deriving DecidableEq

/-- A top-level comment as consumed from the API response. -/
structure TopComment where
  rpid : Int
  mid : Int
  uname : String
  message : String
deriving DecidableEq

/-- An entry of `violation_check_queue`: either `{'type': 'comment'}` with
the raw comment dict, or `{'type': 'sub_comment'}` with the flattened
reply and its `parent_rpid`. -/
inductive QueueItem where
  | comment : TopComment → QueueItem
  | subComment : SubReply → Int → QueueItem
deriving DecidableEq

/-- The pagination loop of `_get_single_sub_comment` (src/app.py lines
238-278), parameterized by the page fetcher (which may raise).  Returns
the items put on `violation_check_queue` so far together with either the
aggregated reply list or the propagated error.  Each fetched page is
enqueued before the next page is requested, so an error on a later page
leaves the earlier pages' items in the queue.  `fuel` bounds the
iterations of the `while True` loop; exhausted fuel is modelled as a
fetch error. -/
def getSubLoop (fetch : Nat → Except Unit (List SubReply)) (parent : Int) :
    Nat → Nat → List SubReply → List QueueItem →
      List QueueItem × Except Unit (List SubReply)
  | 0, _, _, queued => (queued, Except.error ())
  | fuel + 1, page, acc, queued =>
      match fetch page with
      | Except.error e => (queued, Except.error e)
      | Except.ok replies =>
          if replies.isEmpty then (queued, Except.ok acc)
          else
            let acc' := acc ++ replies
            let queued' := queued ++ replies.map (fun r => QueueItem.subComment r parent)
            if replies.length = 20 then getSubLoop fetch parent fuel (page + 1) acc' queued'
            else (queued', Except.ok acc')

/-- Function `_get_single_sub_comment` on one top-level comment: run the page loop
from page 1 with empty accumulators. -/
def getSingleSubComment (fetch : Nat → Except Unit (List SubReply)) (parent : Int)
    (fuel : Nat) : List QueueItem × Except Unit (List SubReply) :=
  getSubLoop fetch parent fuel 1 [] []

/-- The sub-comment harvesting stage of `process_all_comments` (src/app.py
lines 398-416): run `_get_single_sub_comment` for each flagged top-level
comment.  Every item a sequence managed to enqueue stays on
`violation_check_queue` (and the detector drains the whole queue before
the pass proceeds, via `violation_check_queue.join()`); a per-sequence
error is caught by the `try` around `await task`, so later sequences still
run. -/
def harvestSubSequences (fetch : Int → Nat → Except Unit (List SubReply)) (fuel : Nat) :
    List Int → List QueueItem
  | [] => []
  | p :: ps =>
      (getSingleSubComment (fetch p) p fuel).1 ++ harvestSubSequences fetch fuel ps

/-- Claim C8 counterexample. A nested-reply sequence whose page-1 fetch
returns a full page of 20 items and whose page-2 fetch raises: the
sequence as a whole fails (its aggregated result is discarded), yet its
page-1 items are already on the detection queue and are processed — the
claim that no item of the failed sequence reaches detection is false. -/
theorem claim_C8_counterexample :
    (getSingleSubComment
        (fun page => if page = 1
          then Except.ok (List.replicate 20 (⟨100, 8, "u", "bad"⟩ : SubReply))
          else Except.error ()) 1 5).2 = Except.error ()
    ∧ QueueItem.subComment ⟨100, 8, "u", "bad"⟩ 1 ∈
        (getSingleSubComment
          (fun page => if page = 1
            then Except.ok (List.replicate 20 (⟨100, 8, "u", "bad"⟩ : SubReply))
            else Except.error ()) 1 5).1 := by
  constructor
  · rfl
  · decide

/-- Claim C8 amended. A fetch error in one nested-reply sequence is
contained: every item any sequence managed to enqueue — all items of a
sequence that completed, and the already-fetched pages of a sequence that
later failed — is on the detection queue of the pass, regardless of
failures in the other sequences; only the failed sequence's aggregated
return value is discarded, not its already-enqueued items. -/
theorem claim_C8_failed_sequence_isolation (fetch : Int → Nat → Except Unit (List SubReply))
    (fuel : Nat) (ps : List Int) (q : Int) (hq : q ∈ ps) :
    ∀ item ∈ (getSingleSubComment (fetch q) q fuel).1,
      item ∈ harvestSubSequences fetch fuel ps := by
  induction ps with
  | nil => simp at hq
  | cons p rest ih =>
      intro item hitem
      simp only [harvestSubSequences]
      rcases List.mem_cons.1 hq with rfl | hq'
      · exact List.mem_append_left _ hitem
      · exact List.mem_append_right _ (ih hq' item hitem)

/-- Witness for C8 amended: the second sequence's item survives the first
sequence's immediate fetch failure. -/
theorem claim_C8_witness :
    QueueItem.subComment ⟨200, 9, "v", "ok"⟩ 2 ∈
      harvestSubSequences
        (fun p page => if p = 2 ∧ page = 1
          then Except.ok [(⟨200, 9, "v", "ok"⟩ : SubReply)]
          else Except.error ()) 5 [1, 2] := by
  exact claim_C8_failed_sequence_isolation
    (fun p page => if p = 2 ∧ page = 1
      then Except.ok [(⟨200, 9, "v", "ok"⟩ : SubReply)]
      else Except.error ()) 5 [1, 2] 2 (by decide)
    (QueueItem.subComment ⟨200, 9, "v", "ok"⟩ 2) (by decide)

/-- Mutable state touched by `_process_violations` while consuming one
queue item: the ledger and the two action queues. -/
structure DetectorState where
  violation_users : List ViolationRecord
  comment_queue : List Int
  blacklist_queue : List Int
deriving DecidableEq

def itemContent : QueueItem → String
  | QueueItem.comment c => c.message
  | QueueItem.subComment d _ => d.content

def itemUsername : QueueItem → String
  | QueueItem.comment c => c.uname
  | QueueItem.subComment d _ => d.user

def itemUid : QueueItem → Int
  | QueueItem.comment c => c.mid
  | QueueItem.subComment d _ => d.mid

def itemRpid : QueueItem → Int
  | QueueItem.comment c => c.rpid
  | QueueItem.subComment d _ => d.rpid

/-- Function `_update_violation_user` as its caller sees it: the body may raise
(fault injection `some faultLedger` stands for an exception escaping after
the ledger was left in intermediate state `faultLedger`); the function's
own `try/except` swallows the exception, so the caller always gets a
normal return, with no blacklist enqueue in the fault case. -/
def updateViolationUserCaught (fault : Option (List ViolationRecord))
    (ledger : List ViolationRecord) (username : String) (uid rpid : Int)
    (content : String) : List ViolationRecord × Option Int :=
  match fault with
  | some faultLedger => (faultLedger, none)
  | none => updateViolationUser ledger username uid rpid content

/-- One iteration of `_process_violations` (src/app.py lines 349-376) on a
dequeued item: on a pattern match, update the ledger (exceptions inside
the update are swallowed there) and then append the item's rpid to the
removal queue; on no match, leave the state unchanged. -/
def processItem (search : String → String → SearchOutcome) (words : List String)
    (fault : Option (List ViolationRecord)) (st : DetectorState) (item : QueueItem) :
    DetectorState :=
  if checkViolation search words (itemContent item) then
    let r := updateViolationUserCaught fault st.violation_users (itemUsername item)
      (itemUid item) (itemRpid item) (itemContent item)
    { violation_users := r.1
      comment_queue := st.comment_queue ++ [itemRpid item]
      blacklist_queue := st.blacklist_queue ++ r.2.toList }
  else st

/-- Claim C9. For a matched item the removal enqueue is unconditional: the
rpid is appended to `comment_queue` whether the ledger update ran normally
or raised internally (the exception is swallowed inside
`_update_violation_user`, so control always reaches the removal append). -/
theorem claim_C9_removal_despite_update_error (search : String → String → SearchOutcome)
    (words : List String) (fault : Option (List ViolationRecord)) (st : DetectorState)
    (item : QueueItem) (h : checkViolation search words (itemContent item) = true) :
    (processItem search words fault st item).comment_queue =
      st.comment_queue ++ [itemRpid item] := by
  simp [processItem, h]

/-- Witness for C9: with an injected internal error in the ledger update
(fault `some []`), the matched sub-comment's rpid 100 is still enqueued
for removal. -/
theorem claim_C9_witness :
    checkViolation eqSearch ["bad"] (itemContent (QueueItem.subComment ⟨100, 8, "u", "bad"⟩ 1)) = true
    ∧ (processItem eqSearch ["bad"] (some []) ⟨[], [], []⟩
        (QueueItem.subComment ⟨100, 8, "u", "bad"⟩ 1)).comment_queue = [100] := by
  refine ⟨by decide, ?_⟩
  exact claim_C9_removal_despite_update_error eqSearch ["bad"] (some []) ⟨[], [], []⟩
    (QueueItem.subComment ⟨100, 8, "u", "bad"⟩ 1) (by decide)

end BCM
